import Mathlib

/-!
Verification of the van-setu corridor-aggregation specification.

The corridor core (eligibility filter, adjacency rules, connectivity
graph, component extraction, aggregation, classification) lives in
`backend/app/services/corridor_service.py`, which is documented in
`CORRIDOR_QUICK_REFERENCE.md` and `CORRIDOR_INTEGRATION_SUMMARY.md` but is
not itself part of the checked-in sources; those core definitions are
modelled from the specification.  The frontend components
(`CommunitySuggestions`, `InterventionPanel`, the API client defaults) are
embedded directly from their JavaScript sources.
-/

namespace VanSetu

/-! ## Planar geometry over ℚ

Coordinates are rationals; distances are compared through their squares so
that every predicate stays decidable (d ≤ t ↔ d² ≤ t² for nonnegative
quantities). -/

/-- A planar point with rational coordinates. -/
structure Pt where
  x : ℚ
  y : ℚ
deriving DecidableEq, Repr

/-- Squared Euclidean distance between two points. -/
def distSq (p q : Pt) : ℚ :=
  (p.x - q.x) ^ 2 + (p.y - q.y) ^ 2

/-! ## Connected-component extraction

Modelled from the spec: `ConnectivityGraph.find_connected_components`
traverses the eligible vertex list in order and merges every group that the
current vertex is adjacent to (`CORRIDOR_QUICK_REFERENCE.md`, "Connected
Component Detection"; spec §4.3).  The fold below processes vertices in
list order and keeps a list of disjoint groups, merging all groups touched
by the new vertex; the resulting groups are exactly the connected
components of the adjacency relation restricted to the vertex list. -/

/-- Whether vertex `v` is adjacent to some member of group `g`. -/
def touchesGroup (adj : α → α → Bool) (v : α) (g : List α) : Bool :=
  g.any (fun u => adj v u)

/-- Insert vertex `v`: merge all groups adjacent to `v` into one group
containing `v`, keep the remaining groups. -/
def groupStep (adj : α → α → Bool) (gs : List (List α)) (v : α) : List (List α) :=
  (v :: (gs.filter (touchesGroup adj v)).flatten) :: gs.filter (fun g => !touchesGroup adj v g)

/-- Connected components of `adj` over the vertex list `vs`. -/
def componentsOf (adj : α → α → Bool) (vs : List α) : List (List α) :=
  vs.foldl (groupStep adj) []

/-- Two lists are element-disjoint. -/
def DisjL (a b : List α) : Prop := ∀ x, x ∈ a → x ∉ b

/-- Property: any two adjacent vertices lie in the same group. -/
def AdjClosed (adj : α → α → Bool) (gs : List (List α)) : Prop :=
  ∀ g1 ∈ gs, ∀ g2 ∈ gs, ∀ a ∈ g1, ∀ b ∈ g2, adj a b = true → g1 = g2

/-! ## Point-mode records, eligibility, adjacency

Modelled from the spec: "Point mode: true if the geodesic/planar distance
between the two points is ≤ D_max (default 30 m)" (spec §4.2), with the
eligibility filter of §4.1 (priority_score ≥ threshold). -/

/-- A point-mode priority record (spec §3, `PriorityRecord` with Point
geometry). -/
structure PointRecord where
  pid : ℕ
  pos : Pt
  priority : ℚ
deriving DecidableEq, Repr

/-- Point-mode configuration (spec §6): priority threshold, maximum
connection distance D_max, minimum component size N_min. -/
structure PointCfg where
  priority_threshold : ℚ
  d_max : ℚ
  n_min : ℕ
deriving DecidableEq, Repr

/-- Modelled from the spec: the stated point-mode defaults — threshold
0.70, D_max 30 m, N_min 5 (spec §6). -/
def defaultPointCfg : PointCfg :=
  { priority_threshold := 0.70, d_max := 30, n_min := 5 }

/-- Eligibility filter (spec §4.1): records whose priority score meets the
threshold. -/
def eligiblePoints (th : ℚ) (rs : List PointRecord) : List PointRecord :=
  rs.filter (fun r => decide (th ≤ r.priority))

/-- Point-mode adjacency (spec §4.2): distance ≤ D_max, compared through
squares. -/
def pointAdjacent (dmax : ℚ) (a b : PointRecord) : Bool :=
  decide (distSq a.pos b.pos ≤ dmax ^ 2)

/-- Connected components of the point-mode adjacency graph over the
eligible records. -/
def pointComponents (cfg : PointCfg) (rs : List PointRecord) : List (List PointRecord) :=
  componentsOf (pointAdjacent cfg.d_max) (eligiblePoints cfg.priority_threshold rs)

/-! ## Corridors and aggregation output -/

/-- Aggregated corridor (spec §3): id, ordered member ids, mean priority
and a size metric (num_points in point mode, length_m in segment mode). -/
structure Corridor where
  corridor_id : ℕ
  member_ids : List ℕ
  mean_priority : ℚ
  size_metric : ℚ
deriving DecidableEq, Repr

/-- Arithmetic mean of a list of rationals (0 on the empty list). -/
def meanOf (ps : List ℚ) : ℚ := ps.sum / ps.length

/-- Output order (spec §4.4): descending mean_priority, ties broken by
corridor_id. -/
def corridorLE (c1 c2 : Corridor) : Prop :=
  c2.mean_priority < c1.mean_priority ∨
    (c1.mean_priority = c2.mean_priority ∧ c1.corridor_id ≤ c2.corridor_id)

instance : DecidableRel corridorLE := by
  unfold corridorLE
  intro c1 c2
  infer_instance

/-- Full output of one aggregation run (spec §3, `CorridorSet`). -/
structure CorridorSet where
  corridors : List Corridor
  orphan_ids : List ℕ
deriving DecidableEq, Repr

/-- Build a corridor from one point-mode component; member_ids are the
record ids, metrics are arithmetic means (spec §4.4 steps 4-5). -/
def mkPointCorridor (cid : ℕ) (mem : List PointRecord) : Corridor :=
  { corridor_id := cid
    member_ids := mem.map PointRecord.pid
    mean_priority := meanOf (mem.map PointRecord.priority)
    size_metric := mem.length }

/-- Generic aggregation core shared by the two geometry kinds (spec §9
asks for one pipeline generic over the kind): build components over the
eligible records, keep the components passing the post-filter, build a
corridor from each kept component (the i-th created corridor receives id
`ids i`, abstracting the per-run UUID source), sort the corridors, and
report the members of discarded components as orphans. -/
def runAggregation (adj : R → R → Bool) (keep : List R → Bool)
    (mk : ℕ → List R → Corridor) (recId : R → ℕ) (ids : ℕ → ℕ) (elig : List R) : CorridorSet :=
  let comps := componentsOf adj elig
  { corridors :=
      List.insertionSort corridorLE
        ((comps.filter keep).enum.map (fun p => mk (ids p.1) p.2))
    orphan_ids := ((comps.filter (fun c => !keep c)).flatten).map recId }

/-- Modelled from the spec: the point-mode aggregation run (spec §4.4).
Components smaller than N_min are reported as orphans; the rest become
corridors, sorted by descending mean priority with ties broken by
corridor_id. -/
def aggregatePoints (cfg : PointCfg) (ids : ℕ → ℕ) (rs : List PointRecord) : CorridorSet :=
  runAggregation (pointAdjacent cfg.d_max) (fun c => decide (cfg.n_min ≤ c.length))
    mkPointCorridor PointRecord.pid ids (eligiblePoints cfg.priority_threshold rs)

/-! ## Generic partition facts about an aggregation run -/

/-! ## Segment-mode records and adjacency

Modelled from the spec: "Segment mode: true if the two LineStrings
topologically touch, or intersect, or the minimum distance between their
endpoints is ≤ tolerance (default 10 m)" (spec §4.2), with the exact
predicate spelled out as "shared-endpoint touch, interior intersection, or
buffered-distance proximity — all three OR'd" (spec §3, AdjacencyRule).
A LineString is modelled as the straight segment between its two
endpoints. -/

/-- A segment-mode priority record: id, the two endpoints of its
LineString, priority score, and its projected length in meters. -/
structure SegRecord where
  sid : ℕ
  p1 : Pt
  p2 : Pt
  priority : ℚ
  length_m : ℚ
deriving DecidableEq, Repr

/-- Shared-endpoint touch: some endpoint of `a` coincides with some
endpoint of `b`. -/
def SegTouches (a b : SegRecord) : Prop :=
  a.p1 = b.p1 ∨ a.p1 = b.p2 ∨ a.p2 = b.p1 ∨ a.p2 = b.p2

instance : DecidablePred (fun p : SegRecord × SegRecord => SegTouches p.1 p.2) := by
  intro p
  unfold SegTouches
  infer_instance

instance (a b : SegRecord) : Decidable (SegTouches a b) := by
  unfold SegTouches
  infer_instance

/-- Twice the signed area of the triangle `p q r`; its sign gives the
orientation of `r` relative to the directed line `p → q`. -/
def orient2 (p q r : Pt) : ℚ :=
  (q.x - p.x) * (r.y - p.y) - (q.y - p.y) * (r.x - p.x)

/-- Point `r` lies on the closed segment `p q` (assuming collinearity is
checked via `orient2`). -/
def onSeg (p q r : Pt) : Prop :=
  orient2 p q r = 0 ∧ min p.x q.x ≤ r.x ∧ r.x ≤ max p.x q.x ∧
    min p.y q.y ≤ r.y ∧ r.y ≤ max p.y q.y

instance (p q r : Pt) : Decidable (onSeg p q r) := by
  unfold onSeg
  infer_instance

/-- Interior intersection of the two straight segments: proper crossing
(strictly opposite orientations on both sides) or an endpoint of one lying
on the other. -/
def SegsIntersect (a b : SegRecord) : Prop :=
  (orient2 a.p1 a.p2 b.p1 * orient2 a.p1 a.p2 b.p2 < 0 ∧
    orient2 b.p1 b.p2 a.p1 * orient2 b.p1 b.p2 a.p2 < 0) ∨
  onSeg a.p1 a.p2 b.p1 ∨ onSeg a.p1 a.p2 b.p2 ∨
  onSeg b.p1 b.p2 a.p1 ∨ onSeg b.p1 b.p2 a.p2

instance (a b : SegRecord) : Decidable (SegsIntersect a b) := by
  unfold SegsIntersect
  infer_instance

/-- Minimum squared distance between the endpoints of the two segments. -/
def minEndSq (a b : SegRecord) : ℚ :=
  min (min (distSq a.p1 b.p1) (distSq a.p1 b.p2))
    (min (distSq a.p2 b.p1) (distSq a.p2 b.p2))

/-- Segment-mode adjacency (spec §4.2): touch, or intersect, or endpoint
distance within tolerance (squared comparison). -/
def SegAdjacent (tol : ℚ) (a b : SegRecord) : Prop :=
  SegTouches a b ∨ SegsIntersect a b ∨ minEndSq a b ≤ tol ^ 2

instance (tol : ℚ) (a b : SegRecord) : Decidable (SegAdjacent tol a b) := by
  unfold SegAdjacent
  infer_instance

/-- Boolean form of segment adjacency, used when building the graph. -/
def segAdjacentB (tol : ℚ) (a b : SegRecord) : Bool :=
  decide (SegAdjacent tol a b)

/-- Modelled from the spec: `ConnectivityGraph._build_graph` compares all
pairs of distinct segments and records an edge when the adjacency predicate
holds (`CORRIDOR_QUICK_REFERENCE.md`, "Connectivity Graph"); edges are
pairs of positions in the record list, never self-pairs. -/
def segGraphEdges (tol : ℚ) (rs : List SegRecord) : List (ℕ × ℕ) :=
  rs.enum.flatMap (fun p =>
    (rs.enum.filter (fun q => decide (p.1 ≠ q.1) && segAdjacentB tol p.2 q.2)).map
      (fun q => (p.1, q.1)))

/-! ## Segment-mode aggregation with partial-failure isolation -/

/-- Segment-mode configuration (spec §6): priority threshold, minimum
corridor length, adjacency tolerance. -/
structure SegCfg where
  priority_threshold : ℚ
  min_length_m : ℚ
  tolerance : ℚ
deriving DecidableEq, Repr

/-- Modelled from the spec: the stated segment-mode defaults — threshold
0.70, min_length 200 m, tolerance 10 m (spec §6;
`CORRIDOR_INTEGRATION_SUMMARY.md` "Key Configuration"). -/
def defaultSegCfg : SegCfg :=
  { priority_threshold := 0.70, min_length_m := 200, tolerance := 10 }

/-- Eligibility filter for segment records (spec §4.1). -/
def eligibleSegs (th : ℚ) (rs : List SegRecord) : List SegRecord :=
  rs.filter (fun r => decide (th ≤ r.priority))

/-- Connected components of the segment adjacency graph over the eligible
records. -/
def segComponents (cfg : SegCfg) (rs : List SegRecord) : List (List SegRecord) :=
  componentsOf (segAdjacentB cfg.tolerance) (eligibleSegs cfg.priority_threshold rs)

/-- Modelled from the spec: the geometry merge of one component may fail
(`ComputationError`, spec §7); it is abstracted as a function returning the
merged geometry's length, `none` on failure.  The default merge sums the
member segments' projected lengths (spec §4.4 step 3). -/
def defaultMerge (comp : List SegRecord) : Option ℚ :=
  some (comp.map SegRecord.length_m).sum

/-- A component is kept when its geometry merge succeeds and the merged
length passes the min-length post-filter (spec §4.4 step 6). -/
def segKeep (cfg : SegCfg) (mergeOp : List SegRecord → Option ℚ)
    (c : List SegRecord) : Bool :=
  match mergeOp c with
  | some len => decide (cfg.min_length_m ≤ len)
  | none => false

/-- Build a corridor from one kept segment component. -/
def mkSegCorridor (mergeOp : List SegRecord → Option ℚ) (cid : ℕ)
    (mem : List SegRecord) : Corridor :=
  { corridor_id := cid
    member_ids := mem.map SegRecord.sid
    mean_priority := meanOf (mem.map SegRecord.priority)
    size_metric := (mergeOp mem).getD 0 }

/-- Result of a segment-mode run: the corridor set plus the diagnostics
(positions of the components whose geometry merge failed), as required by
spec §7 ("the run's result always carries both the successful CorridorSet
and a list of skip/warning diagnostics"). -/
structure SegRunResult where
  corridorSet : CorridorSet
  warnings : List ℕ
deriving DecidableEq, Repr

/-- Modelled from the spec: the segment-mode aggregation run (spec §4.4,
§7).  A component whose geometry merge fails is dropped with a warning;
components below min-length are discarded; discarded members become
orphans. -/
def aggregateSegs (cfg : SegCfg) (ids : ℕ → ℕ) (mergeOp : List SegRecord → Option ℚ)
    (rs : List SegRecord) : SegRunResult :=
  { corridorSet :=
      runAggregation (segAdjacentB cfg.tolerance) (segKeep cfg mergeOp)
        (mkSegCorridor mergeOp) SegRecord.sid ids (eligibleSegs cfg.priority_threshold rs)
    warnings :=
      ((segComponents cfg rs).enum.filter (fun p => (mergeOp p.2).isNone)).map Prod.fst }

/-! ## Determinism of the output up to the per-run UUID source

Sorting two elementwise-related corridor lists with comparators that agree
on related pairs yields elementwise-related results; hence the member-set
sequence of a run does not depend on the (strictly monotone) id supply. -/

/-- Observable output of a corridor, UUID excluded: member ids, mean
priority, size metric. -/
def corridorData (c : Corridor) : List ℕ × ℚ × ℚ :=
  (c.member_ids, c.mean_priority, c.size_metric)

/-! ## Rule-based classifier

Modelled from the spec (spec §4.5; classification rules in the Part-1
backend prompt of `src/unnamed/part_010`): normalized exposure shares and
a fixed-priority first-match rule chain. -/

/-- The four corridor types of the rule-based classifier. -/
inductive CorridorType where
  | heat_dominated
  | pollution_dominated
  | green_deficit
  | mixed_exposure
deriving DecidableEq, Repr

/-- Green deficit derived from vegetation: 1 - mean_ndvi (spec §4.5). -/
def greenDeficitOf (mean_ndvi : ℚ) : ℚ := 1 - mean_ndvi

/-- Normalized heat share: mean_heat / (heat + aqi + green_deficit). -/
def heatShare (heat aqi gdef : ℚ) : ℚ := heat / (heat + aqi + gdef)

/-- Normalized pollution share: mean_aqi / (heat + aqi + green_deficit). -/
def pollutionShare (heat aqi gdef : ℚ) : ℚ := aqi / (heat + aqi + gdef)

/-- Normalized green share: green_deficit / (heat + aqi + green_deficit). -/
def greenShare (heat aqi gdef : ℚ) : ℚ := gdef / (heat + aqi + gdef)

/-- Deterministic first-match classification: heat_share ≥ 0.45, else
pollution_share ≥ 0.40, else green_share ≥ 0.35, else mixed. -/
def classifyCorridor (heat aqi gdef : ℚ) : CorridorType :=
  if 0.45 ≤ heatShare heat aqi gdef then CorridorType.heat_dominated
  else if 0.40 ≤ pollutionShare heat aqi gdef then CorridorType.pollution_dominated
  else if 0.35 ≤ greenShare heat aqi gdef then CorridorType.green_deficit
  else CorridorType.mixed_exposure

/-! ## Frontend API client defaults

Embedded from `src/unnamed/part_000`, which holds the successive versions
of `frontend/src/api/index.js`, and from
`frontend/src/components/Map.jsx`. -/

/-- Query parameters sent by the corridors list call. -/
structure CorridorListParams where
  priority_threshold : ℚ
  min_length : ℚ
  include_aqi : Bool
deriving DecidableEq, Repr

/-- The `/priority-corridors` client variant: `corridorsApi.list` with
JavaScript default parameters `threshold = 0.60, minLength = 200,
includeAqi = true` (src/unnamed/part_000, first api/index.js version). -/
def corridorsApiList_stream (threshold : Option ℚ) (minLength : Option ℚ)
    (includeAqi : Option Bool) : CorridorListParams :=
  { priority_threshold := threshold.getD 0.60
    min_length := minLength.getD 200
    include_aqi := includeAqi.getD true }

/-- The `/corridors` client variant: `corridorsApi.list` with default
parameters `threshold = 0.70, minLength = 200, includeAqi = true`
(src/unnamed/part_000, third api/index.js version;
`CORRIDOR_INTEGRATION_SUMMARY.md` "API Layer"). -/
def corridorsApiList_plain (threshold : Option ℚ) (minLength : Option ℚ)
    (includeAqi : Option Bool) : CorridorListParams :=
  { priority_threshold := threshold.getD 0.70
    min_length := minLength.getD 200
    include_aqi := includeAqi.getD true }

/-- Parameters of the point-based aggregated-corridors call
(`corridorsApi.aggregated`, src/unnamed/part_000 second version):
JavaScript defaults `dMax = 30, nMin = 5, percentile = 85`. -/
structure AggregatedParams where
  d_max : ℚ
  n_min : ℕ
  percentile : ℚ
deriving DecidableEq, Repr

/-- Default-parameter resolution of `corridorsApi.aggregated`. -/
def corridorsApiAggregated (dMax : Option ℚ) (nMin : Option ℕ)
    (percentile : Option ℚ) : AggregatedParams :=
  { d_max := dMax.getD 30, n_min := nMin.getD 5, percentile := percentile.getD 85 }

/-- The corridors load effect of `Map.jsx` (line 819):
`corridorsApi.list(0.60, 200, true)` — all three arguments explicit. -/
def mapCorridorsLoadParams : CorridorListParams :=
  corridorsApiList_stream (some 0.60) (some 200) (some true)

/-! ## CommunitySuggestions input handling

Embedded from `src/unnamed/part_006` (`CommunitySuggestions.jsx`). -/

/-- MAX_CHARS constant (part_006 line 15). -/
def MAX_CHARS : ℕ := 300

/-- MIN_CHARS constant (part_006 line 16). -/
def MIN_CHARS : ℕ := 3

/-- JavaScript-style whitespace test used by `String.prototype.trim`. -/
def isJsWs (c : Char) : Bool :=
  c = ' ' || c = '\t' || c = '\n' || c = '\r'

/-- Model of `text.trim()`: strip leading and trailing whitespace. -/
def jsTrim (s : String) : String :=
  ⟨((s.toList.dropWhile isJsWs).reverse.dropWhile isJsWs).reverse⟩

/-- `handleInputChange` (part_006 lines 56-62): the new text is accepted
only when its length does not exceed MAX_CHARS; otherwise the previous
input is kept. -/
def handleInputChange (current text : String) : String :=
  if text.length ≤ MAX_CHARS then text else current

/-- `handleSubmit` (part_006 lines 65-89): trims the input, rejects it
when the trimmed length is below MIN_CHARS, otherwise submits the trimmed
text. -/
def handleSubmit (input : String) : Option String :=
  if (jsTrim input).length < MIN_CHARS then none else some (jsTrim input)

/-- `isValidLength` (part_006 line 94): trimmed length ≥ MIN_CHARS and raw
length ≤ MAX_CHARS. -/
def isValidLength (input : String) : Bool :=
  decide (MIN_CHARS ≤ (jsTrim input).length) && decide (input.length ≤ MAX_CHARS)

/-- `canSubmit` (part_006 line 95): valid length and not currently
submitting; the submit button is enabled exactly when this holds. -/
def canSubmit (input : String) (isSubmitting : Bool) : Bool :=
  isValidLength input && !isSubmitting

/-! ## InterventionPanel corridor upvote

Embedded from `src/unnamed/part_005` (`InterventionPanel.jsx`,
`handleUpvote` lines 83-102 and the button's disabled state line 140). -/

/-- Upvote-related component state: displayed count, whether this session
already upvoted, whether a request is in flight. -/
structure UpvoteState where
  upvotes : ℤ
  hasUpvoted : Bool
  isUpvoting : Bool
deriving DecidableEq, Repr

/-- Outcome of the upvote request: the server's new count, or a failure. -/
inductive UpvoteOutcome where
  | success (serverCount : ℤ)
  | failure
deriving DecidableEq, Repr

/-- `handleUpvote` as an atomic transition on the state, returning the new
state and whether a request was issued.  Guard: no-op when `hasUpvoted`,
`isUpvoting`, or the corridor id is null.  Otherwise the optimistic
increment and `hasUpvoted := true` are applied; on success the server
count replaces the optimistic one; on failure the increment is rolled back
(`prev - 1`) and `hasUpvoted` is reset; `isUpvoting` is cleared in the
`finally` block. -/
def handleUpvote (corridorId : Option ℕ) (outcome : UpvoteOutcome)
    (s : UpvoteState) : UpvoteState × Bool :=
  if s.hasUpvoted || s.isUpvoting || corridorId.isNone then (s, false)
  else
    match outcome with
    | UpvoteOutcome.success n =>
        ({ upvotes := n, hasUpvoted := true, isUpvoting := false }, true)
    | UpvoteOutcome.failure =>
        ({ upvotes := s.upvotes + 1 - 1, hasUpvoted := false, isUpvoting := false }, true)

/-- The upvote button's disabled attribute: `hasUpvoted || isUpvoting`
(part_005 line 140). -/
def upvoteDisabled (s : UpvoteState) : Bool :=
  s.hasUpvoted || s.isUpvoting

/-! ## Concrete instances used by witnesses -/

/-- The four points of the spec's point scenario (§8): (0,0), (20,0),
(45,0), (1000,1000), all priority 0.8. -/
def rsC5 : List PointRecord :=
  [{ pid := 0, pos := { x := 0, y := 0 }, priority := 0.8 },
   { pid := 1, pos := { x := 20, y := 0 }, priority := 0.8 },
   { pid := 2, pos := { x := 45, y := 0 }, priority := 0.8 },
   { pid := 3, pos := { x := 1000, y := 1000 }, priority := 0.8 }]

/-- Configuration of the spec's point scenario: D_max = 30, N_min = 3. -/
def cfgC5 : PointCfg :=
  { priority_threshold := 0.70, d_max := 30, n_min := 3 }

/-- A horizontal segment from (0,0) to (10,0). -/
def segA : SegRecord :=
  { sid := 0, p1 := { x := 0, y := 0 }, p2 := { x := 10, y := 0 },
    priority := 1, length_m := 10 }

/-- A horizontal segment from (14,0) to (24,0): its nearest endpoint is
4 m from `segA`'s nearest endpoint. -/
def segB : SegRecord :=
  { sid := 1, p1 := { x := 14, y := 0 }, p2 := { x := 24, y := 0 },
    priority := 1, length_m := 10 }

/-- An isolated long segment used in the partial-failure witness. -/
def segF1 : SegRecord :=
  { sid := 0, p1 := { x := 0, y := 0 }, p2 := { x := 250, y := 0 },
    priority := 1, length_m := 250 }

/-- A second isolated long segment, far from `segF1`. -/
def segF2 : SegRecord :=
  { sid := 1, p1 := { x := 1000, y := 0 }, p2 := { x := 1300, y := 0 },
    priority := 1, length_m := 300 }

/-- A merge operation that fails exactly on components containing the
record with id 1. -/
def failOnSid1 (c : List SegRecord) : Option ℚ :=
  if (c.map SegRecord.sid).contains 1 then none else defaultMerge c

/-! ## Theorems -/

theorem distSq_comm (p q : Pt) : distSq p q = distSq q p := by
  unfold distSq; ring

theorem disjL_symm : Symmetric (DisjL (α := α)) := by
  intro a b h x hxb hxa
  exact h x hxa hxb

theorem mem_flatten_groupStep (adj : α → α → Bool) (gs : List (List α)) (v x : α) :
    x ∈ (groupStep adj gs v).flatten ↔ x = v ∨ x ∈ gs.flatten := by
  unfold groupStep
  constructor
  · intro h
    rcases List.mem_flatten.1 h with ⟨g, hg, hx⟩
    rcases List.mem_cons.1 hg with rfl | hg
    · rcases List.mem_cons.1 hx with rfl | hx
      · exact Or.inl rfl
      · rcases List.mem_flatten.1 hx with ⟨g', hg', hx'⟩
        exact Or.inr (List.mem_flatten.2 ⟨g', (List.mem_filter.1 hg').1, hx'⟩)
    · exact Or.inr (List.mem_flatten.2 ⟨g, (List.mem_filter.1 hg).1, hx⟩)
  · intro h
    rcases h with rfl | h
    · exact List.mem_flatten.2 ⟨_, List.mem_cons_self _ _, List.mem_cons_self _ _⟩
    · rcases List.mem_flatten.1 h with ⟨g, hg, hx⟩
      by_cases hp : touchesGroup adj v g = true
      · refine List.mem_flatten.2 ⟨_, List.mem_cons_self _ _, ?_⟩
        exact List.mem_cons.2 (Or.inr (List.mem_flatten.2 ⟨g, List.mem_filter.2 ⟨hg, hp⟩, hx⟩))
      · refine List.mem_flatten.2 ⟨g, List.mem_cons.2 (Or.inr ?_), hx⟩
        exact List.mem_filter.2 ⟨hg, by simp [hp]⟩

theorem mem_flatten_foldl_groupStep (adj : α → α → Bool) (vs : List α) (gs : List (List α)) (x : α) :
    x ∈ (vs.foldl (groupStep adj) gs).flatten ↔ x ∈ vs ∨ x ∈ gs.flatten := by
  induction vs generalizing gs with
  | nil => simp
  | cons v vs ih =>
      rw [List.foldl_cons, ih, mem_flatten_groupStep]
      simp [List.mem_cons]
      tauto

/-- Cover: the components of `vs` contain exactly the vertices of `vs`. -/
theorem mem_flatten_componentsOf (adj : α → α → Bool) (vs : List α) (x : α) :
    x ∈ (componentsOf adj vs).flatten ↔ x ∈ vs := by
  unfold componentsOf
  rw [mem_flatten_foldl_groupStep]
  simp

theorem groupStep_pairwise_disj (adj : α → α → Bool) {gs : List (List α)} {v : α}
    (hgs : gs.Pairwise DisjL) (hv : v ∉ gs.flatten) :
    (groupStep adj gs v).Pairwise DisjL := by
  unfold groupStep
  refine List.Pairwise.cons ?_ (hgs.sublist (List.filter_sublist _))
  intro b hb x hx hxb
  have hbgs : b ∈ gs := (List.mem_filter.1 hb).1
  have hbq : touchesGroup adj v b = false := by
    have := (List.mem_filter.1 hb).2
    simpa using this
  rcases List.mem_cons.1 hx with rfl | hx
  · exact hv (List.mem_flatten.2 ⟨b, hbgs, hxb⟩)
  · rcases List.mem_flatten.1 hx with ⟨g, hg, hxg⟩
    have hggs : g ∈ gs := (List.mem_filter.1 hg).1
    have hgp : touchesGroup adj v g = true := (List.mem_filter.1 hg).2
    have hne : g ≠ b := by
      intro he; rw [he] at hgp; rw [hgp] at hbq; cases hbq
    have hdisj : DisjL g b := hgs.forall disjL_symm hggs hbgs hne
    exact hdisj x hxg hxb

theorem foldl_groupStep_pairwise_disj (adj : α → α → Bool) (vs : List α) (gs : List (List α))
    (hnd : vs.Nodup) (hgs : gs.Pairwise DisjL) (hout : ∀ x ∈ vs, x ∉ gs.flatten) :
    (vs.foldl (groupStep adj) gs).Pairwise DisjL := by
  induction vs generalizing gs with
  | nil => exact hgs
  | cons v vs ih =>
      rw [List.foldl_cons]
      refine ih _ (List.Nodup.of_cons hnd)
        (groupStep_pairwise_disj adj hgs (hout v (List.mem_cons_self _ _))) ?_
      intro x hx hmem
      rw [mem_flatten_groupStep] at hmem
      rcases hmem with rfl | hmem
      · exact (List.nodup_cons.1 hnd).1 hx
      · exact hout x (List.mem_cons_of_mem _ hx) hmem

/-- Disjointness: distinct components share no vertex. -/
theorem componentsOf_pairwise_disj (adj : α → α → Bool) (vs : List α) (hnd : vs.Nodup) :
    (componentsOf adj vs).Pairwise DisjL := by
  unfold componentsOf
  exact foldl_groupStep_pairwise_disj adj vs [] hnd (by simp) (by simp)

theorem groupStep_adjClosed (adj : α → α → Bool)
    (hsymm : ∀ a b, adj a b = adj b a) {gs : List (List α)} {v : α}
    (hgs : AdjClosed adj gs) : AdjClosed adj (groupStep adj gs v) := by
  intro g1 hg1 g2 hg2 a ha b hb hadj
  unfold groupStep at hg1 hg2
  rcases List.mem_cons.1 hg1 with rfl | hg1 <;> rcases List.mem_cons.1 hg2 with h2 | hg2
  · rw [h2]
  · -- g1 is the new merged group, g2 an untouched old group: impossible
    exfalso
    have hg2gs : g2 ∈ gs := (List.mem_filter.1 hg2).1
    have hg2q : touchesGroup adj v g2 = false := by simpa using (List.mem_filter.1 hg2).2
    rcases List.mem_cons.1 ha with rfl | ha
    · have : touchesGroup adj a g2 = true := List.any_eq_true.2 ⟨b, hb, hadj⟩
      rw [this] at hg2q; cases hg2q
    · rcases List.mem_flatten.1 ha with ⟨g, hg, hag⟩
      have hggs : g ∈ gs := (List.mem_filter.1 hg).1
      have hgp : touchesGroup adj v g = true := (List.mem_filter.1 hg).2
      have : g = g2 := hgs g hggs g2 hg2gs a hag b hb hadj
      rw [this, hg2q] at hgp; cases hgp
  · -- g2 is the new merged group, g1 an untouched old group: impossible
    subst h2
    exfalso
    have hg1gs : g1 ∈ gs := (List.mem_filter.1 hg1).1
    have hg1q : touchesGroup adj v g1 = false := by simpa using (List.mem_filter.1 hg1).2
    rcases List.mem_cons.1 hb with rfl | hb
    · have : touchesGroup adj b g1 = true := by
        refine List.any_eq_true.2 ⟨a, ha, ?_⟩
        rw [hsymm]; exact hadj
      rw [this] at hg1q; cases hg1q
    · rcases List.mem_flatten.1 hb with ⟨g, hg, hbg⟩
      have hggs : g ∈ gs := (List.mem_filter.1 hg).1
      have hgp : touchesGroup adj v g = true := (List.mem_filter.1 hg).2
      have : g1 = g := hgs g1 hg1gs g hggs a ha b hbg hadj
      rw [← this, hg1q] at hgp; cases hgp
  · exact hgs g1 (List.mem_filter.1 hg1).1 g2 (List.mem_filter.1 hg2).1 a ha b hb hadj

/-- Closure: in the component list, adjacency never crosses two distinct
components — two transitively-connected vertices end in one component. -/
theorem componentsOf_adjClosed (adj : α → α → Bool)
    (hsymm : ∀ a b, adj a b = adj b a) (vs : List α) :
    AdjClosed adj (componentsOf adj vs) := by
  unfold componentsOf
  have main : ∀ (l : List α) (gs : List (List α)), AdjClosed adj gs →
      AdjClosed adj (l.foldl (groupStep adj) gs) := by
    intro l
    induction l with
    | nil => intro gs h; exact h
    | cons v vs ih =>
        intro gs h
        rw [List.foldl_cons]
        exact ih _ (groupStep_adjClosed adj hsymm h)
  exact main vs [] (by intro g1 hg1; simp at hg1)

theorem pointAdjacent_symm (dmax : ℚ) (a b : PointRecord) :
    pointAdjacent dmax a b = pointAdjacent dmax b a := by
  unfold pointAdjacent
  rw [distSq_comm]

theorem enum_snd (l : List α) : l.enum.map Prod.snd = l :=
  List.enumFrom_map_snd 0 l

theorem pairwise_enumFrom {S : α → α → Prop} (l : List α) (n : ℕ) (h : l.Pairwise S) :
    (l.enumFrom n).Pairwise (fun p q => S p.2 q.2) := by
  induction l generalizing n with
  | nil => simp
  | cons a l ih =>
      rcases List.pairwise_cons.1 h with ⟨ha, hl⟩
      rw [List.enumFrom_cons]
      refine List.Pairwise.cons ?_ (ih _ hl)
      intro q hq
      have hq2 : q.2 ∈ l := by
        have := List.mem_map_of_mem Prod.snd hq
        rwa [List.enumFrom_map_snd] at this
      exact ha _ hq2

theorem pairwise_enum {S : α → α → Prop} (l : List α) (h : l.Pairwise S) :
    l.enum.Pairwise (fun p q => S p.2 q.2) :=
  pairwise_enumFrom l 0 h

theorem mem_corridors_runAggregation {adj : R → R → Bool} {keep : List R → Bool}
    {mk : ℕ → List R → Corridor} {recId : R → ℕ} {ids : ℕ → ℕ} {elig : List R}
    (hmk : ∀ i c, (mk i c).member_ids = c.map recId)
    {c : Corridor} (hc : c ∈ (runAggregation adj keep mk recId ids elig).corridors) :
    ∃ comp ∈ componentsOf adj elig, keep comp = true ∧ c.member_ids = comp.map recId := by
  unfold runAggregation at hc
  rw [List.mem_insertionSort] at hc
  rcases List.mem_map.1 hc with ⟨p, hp, rfl⟩
  have hsnd : p.2 ∈ (componentsOf adj elig).filter keep := by
    have := List.mem_map_of_mem Prod.snd hp
    rwa [enum_snd] at this
  exact ⟨p.2, (List.mem_filter.1 hsnd).1, (List.mem_filter.1 hsnd).2, hmk _ _⟩

theorem runAggregation_disjoint {adj : R → R → Bool} {keep : List R → Bool}
    {mk : ℕ → List R → Corridor} {recId : R → ℕ} {ids : ℕ → ℕ} {elig : List R}
    (hmk : ∀ i c, (mk i c).member_ids = c.map recId)
    (hnd : (elig.map recId).Nodup) :
    (runAggregation adj keep mk recId ids elig).corridors.Pairwise
      (fun c1 c2 => DisjL c1.member_ids c2.member_ids) := by
  have hndr : elig.Nodup := List.Nodup.of_map _ hnd
  have hcomps : (componentsOf adj elig).Pairwise DisjL :=
    componentsOf_pairwise_disj adj elig hndr
  have hkept : ((componentsOf adj elig).filter keep).Pairwise DisjL :=
    hcomps.sublist (List.filter_sublist _)
  have hmem : ∀ g ∈ (componentsOf adj elig).filter keep, ∀ x ∈ g, x ∈ elig := by
    intro g hg x hx
    have : x ∈ (componentsOf adj elig).flatten :=
      List.mem_flatten.2 ⟨g, (List.mem_filter.1 hg).1, hx⟩
    rwa [mem_flatten_componentsOf] at this
  have hids : ((componentsOf adj elig).filter keep).Pairwise
      (fun c d => DisjL (c.map recId) (d.map recId)) := by
    refine hkept.imp_of_mem ?_
    intro g1 g2 hg1 hg2 hdisj x hx1 hx2
    rcases List.mem_map.1 hx1 with ⟨r1, hr1, rfl⟩
    rcases List.mem_map.1 hx2 with ⟨r2, hr2, he⟩
    have : r1 = r2 :=
      List.inj_on_of_nodup_map hnd (hmem _ hg1 _ hr1) (hmem _ hg2 _ hr2) he.symm
    exact hdisj r1 hr1 (this ▸ hr2)
  have henum : (((componentsOf adj elig).filter keep).enum).Pairwise
      (fun p q => DisjL (p.2.map recId) (q.2.map recId)) :=
    pairwise_enum _ hids
  have hcors : ((((componentsOf adj elig).filter keep).enum).map
      (fun p => mk (ids p.1) p.2)).Pairwise
      (fun c1 c2 => DisjL c1.member_ids c2.member_ids) := by
    rw [List.pairwise_map]
    refine henum.imp ?_
    intro p q h
    rw [hmk, hmk]
    exact h
  unfold runAggregation
  have hperm := List.perm_insertionSort corridorLE
    ((((componentsOf adj elig).filter keep).enum).map (fun p => mk (ids p.1) p.2))
  exact (hperm.pairwise_iff (fun h => disjL_symm h)).2 hcors

theorem runAggregation_cover {adj : R → R → Bool} {keep : List R → Bool}
    {mk : ℕ → List R → Corridor} {recId : R → ℕ} {ids : ℕ → ℕ} {elig : List R}
    (hmk : ∀ i c, (mk i c).member_ids = c.map recId) (x : ℕ) :
    ((∃ c ∈ (runAggregation adj keep mk recId ids elig).corridors, x ∈ c.member_ids) ∨
        x ∈ (runAggregation adj keep mk recId ids elig).orphan_ids) ↔
      x ∈ elig.map recId := by
  constructor
  · rintro (⟨c, hc, hx⟩ | hx)
    · rcases mem_corridors_runAggregation hmk hc with ⟨comp, hcomp, _, hmem⟩
      rw [hmem] at hx
      rcases List.mem_map.1 hx with ⟨r, hr, rfl⟩
      have : r ∈ (componentsOf adj elig).flatten := List.mem_flatten.2 ⟨comp, hcomp, hr⟩
      rw [mem_flatten_componentsOf] at this
      exact List.mem_map_of_mem _ this
    · unfold runAggregation at hx
      rcases List.mem_map.1 hx with ⟨r, hr, rfl⟩
      rcases List.mem_flatten.1 hr with ⟨g, hg, hrg⟩
      have : r ∈ (componentsOf adj elig).flatten :=
        List.mem_flatten.2 ⟨g, (List.mem_filter.1 hg).1, hrg⟩
      rw [mem_flatten_componentsOf] at this
      exact List.mem_map_of_mem _ this
  · intro hx
    rcases List.mem_map.1 hx with ⟨r, hr, rfl⟩
    have : r ∈ (componentsOf adj elig).flatten := (mem_flatten_componentsOf adj elig r).2 hr
    rcases List.mem_flatten.1 this with ⟨comp, hcomp, hrc⟩
    by_cases hk : keep comp = true
    · left
      have hcf : comp ∈ (componentsOf adj elig).filter keep := List.mem_filter.2 ⟨hcomp, hk⟩
      rw [← enum_snd ((componentsOf adj elig).filter keep)] at hcf
      rcases List.mem_map.1 hcf with ⟨p, hp, rfl⟩
      refine ⟨mk (ids p.1) p.2, ?_, ?_⟩
      · unfold runAggregation
        rw [List.mem_insertionSort]
        exact List.mem_map_of_mem _ hp
      · rw [hmk]
        exact List.mem_map_of_mem _ hrc
    · right
      unfold runAggregation
      refine List.mem_map_of_mem _ ?_
      refine List.mem_flatten.2 ⟨comp, ?_, hrc⟩
      exact List.mem_filter.2 ⟨hcomp, by simp [hk]⟩

/-- Every member id of every produced corridor comes from an eligible
record. -/
theorem runAggregation_members_subset {adj : R → R → Bool} {keep : List R → Bool}
    {mk : ℕ → List R → Corridor} {recId : R → ℕ} {ids : ℕ → ℕ} {elig : List R}
    (hmk : ∀ i c, (mk i c).member_ids = c.map recId)
    {c : Corridor} (hc : c ∈ (runAggregation adj keep mk recId ids elig).corridors)
    {x : ℕ} (hx : x ∈ c.member_ids) : x ∈ elig.map recId :=
  (runAggregation_cover hmk x).1 (Or.inl ⟨c, hc, hx⟩)

theorem segTouches_symm (a b : SegRecord) : SegTouches a b ↔ SegTouches b a := by
  unfold SegTouches
  constructor <;>
    (rintro (h | h | h | h) <;> simp [h, eq_comm])

theorem segsIntersect_symm (a b : SegRecord) : SegsIntersect a b ↔ SegsIntersect b a := by
  unfold SegsIntersect
  tauto

theorem minEndSq_comm (a b : SegRecord) : minEndSq a b = minEndSq b a := by
  unfold minEndSq
  rw [min_min_min_comm]
  rw [distSq_comm a.p1 b.p1, distSq_comm a.p1 b.p2, distSq_comm a.p2 b.p1,
    distSq_comm a.p2 b.p2]

theorem segAdjacent_symm (tol : ℚ) (a b : SegRecord) :
    SegAdjacent tol a b ↔ SegAdjacent tol b a := by
  unfold SegAdjacent
  rw [segTouches_symm, segsIntersect_symm, minEndSq_comm]

theorem segAdjacentB_symm (tol : ℚ) (a b : SegRecord) :
    segAdjacentB tol a b = segAdjacentB tol b a := by
  unfold segAdjacentB
  simp only [decide_eq_decide]
  exact segAdjacent_symm tol a b

theorem segGraphEdges_no_self (tol : ℚ) (rs : List SegRecord) :
    ∀ e ∈ segGraphEdges tol rs, e.1 ≠ e.2 := by
  intro e he
  unfold segGraphEdges at he
  rcases List.mem_flatMap.1 he with ⟨p, _, hin⟩
  rcases List.mem_map.1 hin with ⟨q, hq, rfl⟩
  have := (List.mem_filter.1 hq).2
  simp only [Bool.and_eq_true, decide_eq_true_eq] at this
  exact this.1

theorem orderedInsert_forall₂ {Q : α → β → Prop}
    {r1 : α → α → Prop} {r2 : β → β → Prop} [DecidableRel r1] [DecidableRel r2]
    (hag : ∀ a b a' b', Q a a' → Q b b' → (r1 a b ↔ r2 a' b'))
    {l1 : List α} {l2 : List β} (h : List.Forall₂ Q l1 l2)
    {a : α} {a' : β} (ha : Q a a') :
    List.Forall₂ Q (l1.orderedInsert r1 a) (l2.orderedInsert r2 a') := by
  induction h with
  | nil => exact List.Forall₂.cons ha List.Forall₂.nil
  | cons hb hl ih =>
      rename_i b b' t1 t2
      simp only [List.orderedInsert]
      by_cases hr : r1 a b
      · rw [if_pos hr, if_pos ((hag a b a' b' ha hb).1 hr)]
        exact List.Forall₂.cons ha (List.Forall₂.cons hb hl)
      · rw [if_neg hr, if_neg (fun hc => hr ((hag a b a' b' ha hb).2 hc))]
        exact List.Forall₂.cons hb ih

theorem insertionSort_forall₂ {Q : α → β → Prop}
    {r1 : α → α → Prop} {r2 : β → β → Prop} [DecidableRel r1] [DecidableRel r2]
    (hag : ∀ a b a' b', Q a a' → Q b b' → (r1 a b ↔ r2 a' b'))
    {l1 : List α} {l2 : List β} (h : List.Forall₂ Q l1 l2) :
    List.Forall₂ Q (List.insertionSort r1 l1) (List.insertionSort r2 l2) := by
  induction h with
  | nil => exact List.Forall₂.nil
  | cons ha hl ih =>
      simp only [List.insertionSort]
      exact orderedInsert_forall₂ hag ih ha

theorem forall₂_map_same {Q : β → γ → Prop} (f : α → β) (g : α → γ) (l : List α)
    (h : ∀ x ∈ l, Q (f x) (g x)) : List.Forall₂ Q (l.map f) (l.map g) := by
  induction l with
  | nil => exact List.Forall₂.nil
  | cons a l ih =>
      exact List.Forall₂.cons (h a (List.mem_cons_self _ _))
        (ih (fun x hx => h x (List.mem_cons_of_mem _ hx)))

theorem map_eq_of_forall₂ {Q : α → β → Prop} {f : α → γ} {g : β → γ}
    (hfg : ∀ a b, Q a b → f a = g b) {l1 : List α} {l2 : List β}
    (h : List.Forall₂ Q l1 l2) : l1.map f = l2.map g := by
  induction h with
  | nil => rfl
  | cons ha _ ih => simp only [List.map_cons, ih, hfg _ _ ha]

theorem runAggregation_id_invariant {adj : R → R → Bool} {keep : List R → Bool}
    (mk : ℕ → List R → Corridor) (recId : R → ℕ)
    (hmk : ∀ i j c, (mk i c).member_ids = (mk j c).member_ids ∧
      (mk i c).mean_priority = (mk j c).mean_priority ∧
      (mk i c).size_metric = (mk j c).size_metric)
    (hcid : ∀ i c, (mk i c).corridor_id = i)
    {ids1 ids2 : ℕ → ℕ} (h1 : StrictMono ids1) (h2 : StrictMono ids2) (elig : List R) :
    (runAggregation adj keep mk recId ids1 elig).corridors.map corridorData =
      (runAggregation adj keep mk recId ids2 elig).corridors.map corridorData := by
  classical
  set kept := (componentsOf adj elig).filter keep with hkept
  have hQ : List.Forall₂
      (fun c d => corridorData c = corridorData d ∧
        ∃ i, c.corridor_id = ids1 i ∧ d.corridor_id = ids2 i)
      (kept.enum.map (fun p => mk (ids1 p.1) p.2))
      (kept.enum.map (fun p => mk (ids2 p.1) p.2)) := by
    refine forall₂_map_same _ _ _ ?_
    intro p _
    refine ⟨?_, p.1, hcid _ _, hcid _ _⟩
    unfold corridorData
    rcases hmk (ids1 p.1) (ids2 p.1) p.2 with ⟨e1, e2, e3⟩
    rw [e1, e2, e3]
  have hag : ∀ a b a' b',
      (corridorData a = corridorData a' ∧ ∃ i, a.corridor_id = ids1 i ∧ a'.corridor_id = ids2 i) →
      (corridorData b = corridorData b' ∧ ∃ i, b.corridor_id = ids1 i ∧ b'.corridor_id = ids2 i) →
      (corridorLE a b ↔ corridorLE a' b') := by
    rintro a b a' b' ⟨hda, i, hai, hai'⟩ ⟨hdb, j, hbj, hbj'⟩
    have hpa : a.mean_priority = a'.mean_priority := congrArg (fun t => t.2.1) hda
    have hpb : b.mean_priority = b'.mean_priority := congrArg (fun t => t.2.1) hdb
    unfold corridorLE
    rw [hpa, hpb, hai, hbj, hai', hbj']
    rw [h1.le_iff_le, h2.le_iff_le]
  have hsorted := insertionSort_forall₂ hag hQ
  unfold runAggregation
  exact map_eq_of_forall₂ (fun a b hab => hab.1) hsorted

/-! ## Claim theorems -/

/-- C1: for every aggregation run (point or segment mode, any
configuration, any id supply, any merge operation) over records with
unique ids, the member_ids of any two distinct corridors in the output are
disjoint, and the union of all corridor member ids with the reported
orphan ids equals exactly the set of eligible record ids (priority_score ≥
threshold). -/
theorem C1_member_partition :
    (∀ (cfg : PointCfg) (ids : ℕ → ℕ) (rs : List PointRecord),
      (rs.map PointRecord.pid).Nodup →
      ((aggregatePoints cfg ids rs).corridors.Pairwise
          (fun c1 c2 => DisjL c1.member_ids c2.member_ids) ∧
        ∀ x, ((∃ c ∈ (aggregatePoints cfg ids rs).corridors, x ∈ c.member_ids) ∨
            x ∈ (aggregatePoints cfg ids rs).orphan_ids) ↔
          x ∈ (eligiblePoints cfg.priority_threshold rs).map PointRecord.pid)) ∧
    (∀ (cfg : SegCfg) (ids : ℕ → ℕ) (mergeOp : List SegRecord → Option ℚ)
        (rs : List SegRecord),
      (rs.map SegRecord.sid).Nodup →
      (((aggregateSegs cfg ids mergeOp rs).corridorSet.corridors.Pairwise
          (fun c1 c2 => DisjL c1.member_ids c2.member_ids)) ∧
        ∀ x, ((∃ c ∈ (aggregateSegs cfg ids mergeOp rs).corridorSet.corridors,
              x ∈ c.member_ids) ∨
            x ∈ (aggregateSegs cfg ids mergeOp rs).corridorSet.orphan_ids) ↔
          x ∈ (eligibleSegs cfg.priority_threshold rs).map SegRecord.sid)) := by
  constructor
  · intro cfg ids rs hnd
    have hnd' : ((eligiblePoints cfg.priority_threshold rs).map PointRecord.pid).Nodup :=
      List.Nodup.sublist (List.Sublist.map _ (List.filter_sublist rs)) hnd
    exact ⟨runAggregation_disjoint (fun i c => rfl) hnd',
      fun x => runAggregation_cover (fun i c => rfl) x⟩
  · intro cfg ids mergeOp rs hnd
    have hnd' : ((eligibleSegs cfg.priority_threshold rs).map SegRecord.sid).Nodup :=
      List.Nodup.sublist (List.Sublist.map _ (List.filter_sublist rs)) hnd
    exact ⟨runAggregation_disjoint (fun i c => rfl) hnd',
      fun x => runAggregation_cover (fun i c => rfl) x⟩

theorem C1_member_partition_witness :
    (rsC5.map PointRecord.pid).Nodup ∧
    ((aggregatePoints cfgC5 id rsC5).corridors.Pairwise
        (fun c1 c2 => DisjL c1.member_ids c2.member_ids) ∧
      ∀ x, ((∃ c ∈ (aggregatePoints cfgC5 id rsC5).corridors, x ∈ c.member_ids) ∨
          x ∈ (aggregatePoints cfgC5 id rsC5).orphan_ids) ↔
        x ∈ (eligiblePoints cfgC5.priority_threshold rsC5).map PointRecord.pid) :=
  ⟨by decide, C1_member_partition.1 cfgC5 id rsC5 (by decide)⟩

/-- C2: the segment-mode adjacency predicate holds exactly when the two
segments touch, intersect, or their minimum endpoint distance is within
tolerance; it is symmetric; the connectivity graph built from it has no
self-edges; adjacency holds at endpoint distance exactly the tolerance and
fails at tolerance + ε for segments that neither touch nor intersect. -/
theorem C2_adjacency_rule :
    (∀ (t : ℚ) (a b : SegRecord),
      SegAdjacent t a b ↔ (SegTouches a b ∨ SegsIntersect a b ∨ minEndSq a b ≤ t ^ 2)) ∧
    (∀ (t : ℚ) (a b : SegRecord), SegAdjacent t a b ↔ SegAdjacent t b a) ∧
    (∀ (t : ℚ) (rs : List SegRecord), ∀ e ∈ segGraphEdges t rs, e.1 ≠ e.2) ∧
    (∀ (t : ℚ) (a b : SegRecord), minEndSq a b = t ^ 2 → SegAdjacent t a b) ∧
    (∀ (t eps : ℚ) (a b : SegRecord), 0 ≤ t → 0 < eps →
      ¬SegTouches a b → ¬SegsIntersect a b → minEndSq a b = (t + eps) ^ 2 →
      ¬SegAdjacent t a b) := by
  refine ⟨fun t x y => Iff.rfl, segAdjacent_symm, segGraphEdges_no_self, ?_, ?_⟩
  · intro t a b h
    exact Or.inr (Or.inr (le_of_eq h))
  · intro t eps a b ht heps htouch hinter hd hadj
    rcases hadj with h | h | h
    · exact htouch h
    · exact hinter h
    · rw [hd] at h
      nlinarith

theorem C2_adjacency_rule_witness :
    (minEndSq segA segB = (4 : ℚ) ^ 2 ∧ SegAdjacent 4 segA segB) ∧
    ((0 : ℚ) ≤ 3 ∧ (0 : ℚ) < 1 ∧ ¬SegTouches segA segB ∧ ¬SegsIntersect segA segB ∧
      minEndSq segA segB = ((3 : ℚ) + 1) ^ 2 ∧ ¬SegAdjacent 3 segA segB) := by
  have h16 : minEndSq segA segB = (4 : ℚ) ^ 2 := by
    norm_num [minEndSq, distSq, segA, segB]
  have htouch : ¬SegTouches segA segB := by
    norm_num [SegTouches, segA, segB, Pt.mk.injEq]
  have hinter : ¬SegsIntersect segA segB := by
    norm_num [SegsIntersect, onSeg, orient2, segA, segB]
  have h16' : minEndSq segA segB = ((3 : ℚ) + 1) ^ 2 := by
    rw [h16]; norm_num
  refine ⟨⟨h16, C2_adjacency_rule.2.2.2.1 4 segA segB h16⟩,
    by norm_num, by norm_num, htouch, hinter, h16',
    C2_adjacency_rule.2.2.2.2 3 1 segA segB (by norm_num) (by norm_num) htouch hinter h16'⟩

/-- C3: the observable output of a run — the sequence of member-id sets
with their metrics, in output order, and the orphan list — is a
deterministic function of the input and configuration alone: it is
invariant under the per-run UUID supply (any strictly monotone id
generator), in both point and segment mode. -/
theorem C3_deterministic_output :
    (∀ (cfg : PointCfg) (rs : List PointRecord) (ids1 ids2 : ℕ → ℕ),
      StrictMono ids1 → StrictMono ids2 →
      (aggregatePoints cfg ids1 rs).corridors.map corridorData =
          (aggregatePoints cfg ids2 rs).corridors.map corridorData ∧
        (aggregatePoints cfg ids1 rs).orphan_ids =
          (aggregatePoints cfg ids2 rs).orphan_ids) ∧
    (∀ (cfg : SegCfg) (mergeOp : List SegRecord → Option ℚ) (rs : List SegRecord)
        (ids1 ids2 : ℕ → ℕ),
      StrictMono ids1 → StrictMono ids2 →
      (aggregateSegs cfg ids1 mergeOp rs).corridorSet.corridors.map corridorData =
          (aggregateSegs cfg ids2 mergeOp rs).corridorSet.corridors.map corridorData ∧
        (aggregateSegs cfg ids1 mergeOp rs).corridorSet.orphan_ids =
          (aggregateSegs cfg ids2 mergeOp rs).corridorSet.orphan_ids ∧
        (aggregateSegs cfg ids1 mergeOp rs).warnings =
          (aggregateSegs cfg ids2 mergeOp rs).warnings) := by
  constructor
  · intro cfg rs ids1 ids2 h1 h2
    exact ⟨runAggregation_id_invariant mkPointCorridor PointRecord.pid
        (fun i j c => ⟨rfl, rfl, rfl⟩) (fun i c => rfl) h1 h2 _, rfl⟩
  · intro cfg mergeOp rs ids1 ids2 h1 h2
    exact ⟨runAggregation_id_invariant (mkSegCorridor mergeOp) SegRecord.sid
        (fun i j c => ⟨rfl, rfl, rfl⟩) (fun i c => rfl) h1 h2 _, rfl, rfl⟩

theorem C3_deterministic_output_witness :
    StrictMono (id : ℕ → ℕ) ∧ StrictMono (Nat.succ) ∧
    ((aggregatePoints cfgC5 id rsC5).corridors.map corridorData =
        (aggregatePoints cfgC5 Nat.succ rsC5).corridors.map corridorData ∧
      (aggregatePoints cfgC5 id rsC5).orphan_ids =
        (aggregatePoints cfgC5 Nat.succ rsC5).orphan_ids) :=
  ⟨strictMono_id, fun _ _ h => Nat.succ_lt_succ h,
    C3_deterministic_output.1 cfgC5 rsC5 id Nat.succ strictMono_id
      (fun _ _ h => Nat.succ_lt_succ h)⟩

/-- C4: the classifier's shares are metric / (heat + aqi + green_deficit)
with green_deficit = 1 - mean_ndvi, and the rules are evaluated in fixed
order with the first match winning: heat_share ≥ 0.45, else
pollution_share ≥ 0.40, else green_share ≥ 0.35, else mixed_exposure; a
corridor with mean_heat 0.6, mean_aqi 0.2, green_deficit 0.2 is
heat_dominated. -/
theorem C4_classifier_rules :
    (∀ ndvi : ℚ, greenDeficitOf ndvi = 1 - ndvi) ∧
    (∀ h a g : ℚ, heatShare h a g = h / (h + a + g) ∧
      pollutionShare h a g = a / (h + a + g) ∧ greenShare h a g = g / (h + a + g)) ∧
    (∀ h a g : ℚ,
      (0.45 ≤ heatShare h a g →
        classifyCorridor h a g = CorridorType.heat_dominated) ∧
      (heatShare h a g < 0.45 → 0.40 ≤ pollutionShare h a g →
        classifyCorridor h a g = CorridorType.pollution_dominated) ∧
      (heatShare h a g < 0.45 → pollutionShare h a g < 0.40 → 0.35 ≤ greenShare h a g →
        classifyCorridor h a g = CorridorType.green_deficit) ∧
      (heatShare h a g < 0.45 → pollutionShare h a g < 0.40 → greenShare h a g < 0.35 →
        classifyCorridor h a g = CorridorType.mixed_exposure)) ∧
    classifyCorridor 0.6 0.2 0.2 = CorridorType.heat_dominated := by
  refine ⟨fun ndvi => rfl, fun h a g => ⟨rfl, rfl, rfl⟩, ?_, ?_⟩
  · intro h a g
    refine ⟨?_, ?_, ?_, ?_⟩
    · intro h1
      unfold classifyCorridor
      rw [if_pos h1]
    · intro h1 h2
      unfold classifyCorridor
      rw [if_neg (not_le.2 h1), if_pos h2]
    · intro h1 h2 h3
      unfold classifyCorridor
      rw [if_neg (not_le.2 h1), if_neg (not_le.2 h2), if_pos h3]
    · intro h1 h2 h3
      unfold classifyCorridor
      rw [if_neg (not_le.2 h1), if_neg (not_le.2 h2), if_neg (not_le.2 h3)]
  · norm_num [classifyCorridor, heatShare]

theorem C4_classifier_rules_witness :
    ((0.45 : ℚ) ≤ heatShare 0.6 0.2 0.2) ∧
    classifyCorridor 0.6 0.2 0.2 = CorridorType.heat_dominated := by
  have h : (0.45 : ℚ) ≤ heatShare 0.6 0.2 0.2 := by norm_num [heatShare]
  exact ⟨h, (C4_classifier_rules.2.2.1 0.6 0.2 0.2).1 h⟩

theorem length_filter_enumFrom (q : α → Bool) (l : List α) (n : ℕ) :
    ((l.enumFrom n).filter (fun p => q p.2)).length = (l.filter q).length := by
  induction l generalizing n with
  | nil => rfl
  | cons a l ih =>
      rw [List.enumFrom_cons]
      by_cases h : q a = true
      · simp only [List.filter_cons, h, if_true]
        simp only [List.length_cons, ih]
      · simp only [List.filter_cons, h, if_false]
        exact ih _

/-- C5: point-mode adjacency holds exactly at distance ≤ D_max (squared
comparison); the extracted components are closed under adjacency, so
transitively-connected points share one corridor even when their direct
distance exceeds D_max; components below N_min are reported as orphans;
and the spec's four-point scenario with D_max = 30, N_min = 3 yields
exactly one corridor of 3 points and one orphan. -/
theorem C5_point_mode :
    (∀ (dmax : ℚ) (a b : PointRecord),
      pointAdjacent dmax a b = true ↔ distSq a.pos b.pos ≤ dmax ^ 2) ∧
    (∀ (cfg : PointCfg) (rs : List PointRecord),
      AdjClosed (pointAdjacent cfg.d_max) (pointComponents cfg rs)) ∧
    (∀ (cfg : PointCfg) (ids : ℕ → ℕ) (rs : List PointRecord) (c : List PointRecord),
      c ∈ pointComponents cfg rs → c.length < cfg.n_min →
      ∀ r ∈ c, r.pid ∈ (aggregatePoints cfg ids rs).orphan_ids) ∧
    ((aggregatePoints cfgC5 id rsC5).corridors.map Corridor.member_ids = [[2, 1, 0]] ∧
      (aggregatePoints cfgC5 id rsC5).orphan_ids = [3]) := by
  refine ⟨fun dmax a b => decide_eq_true_iff, ?_, ?_, ?_⟩
  · intro cfg rs
    exact componentsOf_adjClosed _ (pointAdjacent_symm cfg.d_max) _
  · intro cfg ids rs c hc hlen r hr
    have horph : (aggregatePoints cfg ids rs).orphan_ids =
        ((componentsOf (pointAdjacent cfg.d_max)
            (eligiblePoints cfg.priority_threshold rs)).filter
          (fun c => !decide (cfg.n_min ≤ c.length))).flatten.map PointRecord.pid := rfl
    rw [horph]
    refine List.mem_map_of_mem _ (List.mem_flatten.2 ⟨c, List.mem_filter.2 ⟨hc, ?_⟩, hr⟩)
    simp only [Bool.not_eq_true', decide_eq_false_iff_not]
    exact Nat.not_le.2 hlen
  · constructor <;>
      norm_num [aggregatePoints, runAggregation, pointComponents, componentsOf,
        eligiblePoints, groupStep, touchesGroup, pointAdjacent, distSq, mkPointCorridor,
        meanOf, List.insertionSort, List.orderedInsert, corridorLE, rsC5, cfgC5,
        List.filter, List.enum, List.enumFrom]

theorem C5_point_mode_witness :
    ([({ pid := 3, pos := { x := 1000, y := 1000 }, priority := 0.8 } : PointRecord)] ∈
        pointComponents cfgC5 rsC5) ∧
    ([({ pid := 3, pos := { x := 1000, y := 1000 }, priority := 0.8 } : PointRecord)].length <
        cfgC5.n_min) ∧
    (3 : ℕ) ∈ (aggregatePoints cfgC5 id rsC5).orphan_ids := by
  have hcomp : pointComponents cfgC5 rsC5 =
      [[({ pid := 3, pos := { x := 1000, y := 1000 }, priority := 0.8 } : PointRecord)],
       [{ pid := 2, pos := { x := 45, y := 0 }, priority := 0.8 },
        { pid := 1, pos := { x := 20, y := 0 }, priority := 0.8 },
        { pid := 0, pos := { x := 0, y := 0 }, priority := 0.8 }]] := by
    norm_num [pointComponents, componentsOf, eligiblePoints, groupStep, touchesGroup,
      pointAdjacent, distSq, rsC5, cfgC5, List.filter]
  have hmem : [({ pid := 3, pos := { x := 1000, y := 1000 }, priority := 0.8 } : PointRecord)] ∈
      pointComponents cfgC5 rsC5 := by
    rw [hcomp]; simp
  refine ⟨hmem, by norm_num [cfgC5], ?_⟩
  exact C5_point_mode.2.2.1 cfgC5 id rsC5 _ hmem (by norm_num [cfgC5])
    { pid := 3, pos := { x := 1000, y := 1000 }, priority := 0.8 } (by simp)

/-- C6: the eligibility filter is antitone in the threshold — for t1 ≤ t2
every record eligible at t2 is eligible at t1 — and every member of every
corridor produced at threshold t2 was already eligible at any lower
threshold t1, in both modes. -/
theorem C6_threshold_monotone :
    (∀ (rs : List PointRecord) (t1 t2 : ℚ), t1 ≤ t2 →
      ∀ r ∈ eligiblePoints t2 rs, r ∈ eligiblePoints t1 rs) ∧
    (∀ (rs : List SegRecord) (t1 t2 : ℚ), t1 ≤ t2 →
      ∀ r ∈ eligibleSegs t2 rs, r ∈ eligibleSegs t1 rs) ∧
    (∀ (cfg : PointCfg) (ids : ℕ → ℕ) (rs : List PointRecord) (t1 : ℚ),
      t1 ≤ cfg.priority_threshold →
      ∀ c ∈ (aggregatePoints cfg ids rs).corridors, ∀ x ∈ c.member_ids,
        x ∈ (eligiblePoints t1 rs).map PointRecord.pid) ∧
    (∀ (cfg : SegCfg) (ids : ℕ → ℕ) (mergeOp : List SegRecord → Option ℚ)
        (rs : List SegRecord) (t1 : ℚ), t1 ≤ cfg.priority_threshold →
      ∀ c ∈ (aggregateSegs cfg ids mergeOp rs).corridorSet.corridors, ∀ x ∈ c.member_ids,
        x ∈ (eligibleSegs t1 rs).map SegRecord.sid) := by
  have hP : ∀ (rs : List PointRecord) (t1 t2 : ℚ), t1 ≤ t2 →
      ∀ r ∈ eligiblePoints t2 rs, r ∈ eligiblePoints t1 rs := by
    intro rs t1 t2 h r hr
    rcases List.mem_filter.1 hr with ⟨hmem, hp⟩
    exact List.mem_filter.2 ⟨hmem, decide_eq_true (le_trans h (of_decide_eq_true hp))⟩
  have hS : ∀ (rs : List SegRecord) (t1 t2 : ℚ), t1 ≤ t2 →
      ∀ r ∈ eligibleSegs t2 rs, r ∈ eligibleSegs t1 rs := by
    intro rs t1 t2 h r hr
    rcases List.mem_filter.1 hr with ⟨hmem, hp⟩
    exact List.mem_filter.2 ⟨hmem, decide_eq_true (le_trans h (of_decide_eq_true hp))⟩
  refine ⟨hP, hS, ?_, ?_⟩
  · intro cfg ids rs t1 h c hc x hx
    have hx' : x ∈ (eligiblePoints cfg.priority_threshold rs).map PointRecord.pid :=
      runAggregation_members_subset (fun i c => rfl) hc hx
    rcases List.mem_map.1 hx' with ⟨r, hr, rfl⟩
    exact List.mem_map_of_mem _ (hP rs t1 cfg.priority_threshold h r hr)
  · intro cfg ids mergeOp rs t1 h c hc x hx
    have hx' : x ∈ (eligibleSegs cfg.priority_threshold rs).map SegRecord.sid :=
      runAggregation_members_subset (fun i c => rfl) hc hx
    rcases List.mem_map.1 hx' with ⟨r, hr, rfl⟩
    exact List.mem_map_of_mem _ (hS rs t1 cfg.priority_threshold h r hr)

theorem C6_threshold_monotone_witness :
    ((0.5 : ℚ) ≤ 0.7 ∧
      ∀ r ∈ eligiblePoints 0.7 rsC5, r ∈ eligiblePoints 0.5 rsC5) ∧
    ((0.5 : ℚ) ≤ cfgC5.priority_threshold ∧
      ∀ c ∈ (aggregatePoints cfgC5 id rsC5).corridors, ∀ x ∈ c.member_ids,
        x ∈ (eligiblePoints 0.5 rsC5).map PointRecord.pid) := by
  have h1 : (0.5 : ℚ) ≤ 0.7 := by norm_num
  have h2 : (0.5 : ℚ) ≤ cfgC5.priority_threshold := by norm_num [cfgC5]
  exact ⟨⟨h1, C6_threshold_monotone.1 rsC5 0.5 0.7 h1⟩,
    ⟨h2, C6_threshold_monotone.2.2.1 cfgC5 id rsC5 0.5 h2⟩⟩

/-- C7: a failed geometry merge drops only its own component — every other
component whose merge succeeds and passes the length filter still becomes
a corridor — the run's result carries the corridor set together with one
warning per failed component, and the member/orphan partition of the
eligible set is preserved even in the presence of failures. -/
theorem C7_partial_failure_isolation :
    (∀ (cfg : SegCfg) (ids : ℕ → ℕ) (mergeOp : List SegRecord → Option ℚ)
        (rs : List SegRecord),
      (aggregateSegs cfg ids mergeOp rs).warnings.length =
        ((segComponents cfg rs).filter (fun c => (mergeOp c).isNone)).length) ∧
    (∀ (cfg : SegCfg) (ids : ℕ → ℕ) (mergeOp : List SegRecord → Option ℚ)
        (rs : List SegRecord), ∀ c ∈ segComponents cfg rs, ∀ len : ℚ,
      mergeOp c = some len → cfg.min_length_m ≤ len →
      ∃ cor ∈ (aggregateSegs cfg ids mergeOp rs).corridorSet.corridors,
        cor.member_ids = c.map SegRecord.sid ∧ cor.size_metric = len) ∧
    (∀ (cfg : SegCfg) (ids : ℕ → ℕ) (mergeOp : List SegRecord → Option ℚ)
        (rs : List SegRecord) (x : ℕ),
      ((∃ cor ∈ (aggregateSegs cfg ids mergeOp rs).corridorSet.corridors,
          x ∈ cor.member_ids) ∨
        x ∈ (aggregateSegs cfg ids mergeOp rs).corridorSet.orphan_ids) ↔
      x ∈ (eligibleSegs cfg.priority_threshold rs).map SegRecord.sid) := by
  refine ⟨?_, ?_, ?_⟩
  · intro cfg ids mergeOp rs
    have hw : (aggregateSegs cfg ids mergeOp rs).warnings =
        ((segComponents cfg rs).enum.filter (fun p => (mergeOp p.2).isNone)).map Prod.fst :=
      rfl
    rw [hw, List.length_map]
    exact length_filter_enumFrom (fun c => (mergeOp c).isNone) (segComponents cfg rs) 0
  · intro cfg ids mergeOp rs c hc len hm hlen
    have hkeep : segKeep cfg mergeOp c = true := by
      unfold segKeep
      rw [hm]
      exact decide_eq_true hlen
    have hcf : c ∈ (componentsOf (segAdjacentB cfg.tolerance)
        (eligibleSegs cfg.priority_threshold rs)).filter (segKeep cfg mergeOp) :=
      List.mem_filter.2 ⟨hc, hkeep⟩
    rw [← enum_snd ((componentsOf (segAdjacentB cfg.tolerance)
        (eligibleSegs cfg.priority_threshold rs)).filter (segKeep cfg mergeOp))] at hcf
    rcases List.mem_map.1 hcf with ⟨p, hp, rfl⟩
    refine ⟨mkSegCorridor mergeOp (ids p.1) p.2, ?_, rfl, ?_⟩
    · have hcors : (aggregateSegs cfg ids mergeOp rs).corridorSet.corridors =
          List.insertionSort corridorLE
            ((((componentsOf (segAdjacentB cfg.tolerance)
                (eligibleSegs cfg.priority_threshold rs)).filter
              (segKeep cfg mergeOp)).enum).map
                (fun p => mkSegCorridor mergeOp (ids p.1) p.2)) := rfl
      rw [hcors, List.mem_insertionSort]
      exact List.mem_map_of_mem _ hp
    · show (mergeOp p.2).getD 0 = len
      rw [hm]
      rfl
  · intro cfg ids mergeOp rs x
    exact runAggregation_cover (fun i c => rfl) x

theorem C7_partial_failure_isolation_witness :
    [segF1] ∈ segComponents defaultSegCfg [segF1, segF2] ∧
    failOnSid1 [segF1] = some 250 ∧
    defaultSegCfg.min_length_m ≤ 250 ∧
    (∃ cor ∈ (aggregateSegs defaultSegCfg id failOnSid1
        [segF1, segF2]).corridorSet.corridors,
      cor.member_ids = [segF1].map SegRecord.sid ∧ cor.size_metric = 250) := by
  have hcomp : segComponents defaultSegCfg [segF1, segF2] = [[segF2], [segF1]] := by
    norm_num [segComponents, componentsOf, eligibleSegs, defaultSegCfg, groupStep,
      touchesGroup, segAdjacentB, SegAdjacent, SegTouches, SegsIntersect, onSeg, orient2,
      minEndSq, distSq, segF1, segF2, Pt.mk.injEq, min_def, max_def]
  have hmem : [segF1] ∈ segComponents defaultSegCfg [segF1, segF2] := by
    rw [hcomp]; simp
  have hfail : failOnSid1 [segF1] = some 250 := by
    norm_num [failOnSid1, segF1, defaultMerge, List.contains]
  have hlen : defaultSegCfg.min_length_m ≤ (250 : ℚ) := by norm_num [defaultSegCfg]
  exact ⟨hmem, hfail, hlen,
    C7_partial_failure_isolation.2.1 defaultSegCfg id failOnSid1 [segF1, segF2]
      [segF1] hmem 250 hfail hlen⟩

/-- C8 counterexample: in the api client variant that serves the corridor
list from `/priority-corridors` (src/unnamed/part_000, corridorsApi.list),
a call without an explicit threshold resolves `priority_threshold` to
0.60, not 0.70 — so not every invocation without explicit overrides uses
the stated default 0.70. -/
theorem C8_counterexample :
    (corridorsApiList_stream none none none).priority_threshold = 0.60 ∧
    (corridorsApiList_stream none none none).priority_threshold ≠ 0.70 := by
  constructor
  · rfl
  · norm_num [corridorsApiList_stream]

/-- C8 (amended): the `/corridors` api client variant and the backend
defaults match the stated configuration defaults (priority_threshold 0.70,
min_length_m 200, D_max 30, N_min 5, tolerance 10), and the point-based
aggregated client defaults to D_max 30, N_min 5; but the
`/priority-corridors` client variant defaults its threshold to 0.60, and
the Map component's corridor load passes 0.60 explicitly rather than
relying on any default. -/
theorem C8_configuration_defaults :
    (corridorsApiList_plain none none none).priority_threshold = 0.70 ∧
    (corridorsApiList_plain none none none).min_length = 200 ∧
    (corridorsApiList_plain none none none).include_aqi = true ∧
    (corridorsApiList_stream none none none).priority_threshold = 0.60 ∧
    (corridorsApiList_stream none none none).min_length = 200 ∧
    (corridorsApiAggregated none none none).d_max = 30 ∧
    (corridorsApiAggregated none none none).n_min = 5 ∧
    mapCorridorsLoadParams.priority_threshold = 0.60 ∧
    defaultSegCfg.priority_threshold = 0.70 ∧
    defaultSegCfg.min_length_m = 200 ∧
    defaultSegCfg.tolerance = 10 ∧
    defaultPointCfg.priority_threshold = 0.70 ∧
    defaultPointCfg.d_max = 30 ∧
    defaultPointCfg.n_min = 5 :=
  ⟨rfl, rfl, rfl, rfl, rfl, rfl, rfl, rfl, rfl, rfl, rfl, rfl, rfl, rfl⟩

/-- C9: the CommunitySuggestions input can never exceed 300 characters
(every input reachable through handleInputChange from the empty initial
state is within MAX_CHARS, and a single accepted change preserves the
bound); a submission is always the trimmed text and never shorter than
MIN_CHARS = 3 (handleSubmit rejects shorter input); and the submit button
is enabled only when the trimmed length is at least 3 and the raw length
at most 300. -/
theorem C9_suggestion_input_bounds :
    (∀ texts : List String,
      (texts.foldl handleInputChange (String.mk [])).length ≤ MAX_CHARS) ∧
    (∀ current text : String, current.length ≤ MAX_CHARS →
      (handleInputChange current text).length ≤ MAX_CHARS) ∧
    (∀ input out : String, handleSubmit input = some out →
      out = jsTrim input ∧ MIN_CHARS ≤ out.length) ∧
    (∀ input : String, (jsTrim input).length < MIN_CHARS → handleSubmit input = none) ∧
    (∀ (input : String) (submitting : Bool), canSubmit input submitting = true →
      MIN_CHARS ≤ (jsTrim input).length ∧ input.length ≤ MAX_CHARS) := by
  have hstep : ∀ current text : String, current.length ≤ MAX_CHARS →
      (handleInputChange current text).length ≤ MAX_CHARS := by
    intro current text h
    unfold handleInputChange
    by_cases ht : text.length ≤ MAX_CHARS
    · rw [if_pos ht]; exact ht
    · rw [if_neg ht]; exact h
  refine ⟨?_, hstep, ?_, ?_, ?_⟩
  · intro texts
    have haux : ∀ (ts : List String) (s : String), s.length ≤ MAX_CHARS →
        (ts.foldl handleInputChange s).length ≤ MAX_CHARS := by
      intro ts
      induction ts with
      | nil => intro s h; exact h
      | cons t ts ih =>
          intro s h
          rw [List.foldl_cons]
          exact ih _ (hstep s t h)
    exact haux texts (String.mk []) (by decide)
  · intro input out h
    unfold handleSubmit at h
    by_cases hlt : (jsTrim input).length < MIN_CHARS
    · rw [if_pos hlt] at h; cases h
    · rw [if_neg hlt] at h
      cases h
      exact ⟨rfl, Nat.le_of_not_lt hlt⟩
  · intro input h
    unfold handleSubmit
    rw [if_pos h]
  · intro input submitting h
    unfold canSubmit isValidLength at h
    simp only [Bool.and_eq_true, decide_eq_true_eq] at h
    exact ⟨h.1.1, h.1.2⟩

theorem C9_suggestion_input_bounds_witness :
    ((String.mk ['a']).length ≤ MAX_CHARS ∧
      (handleInputChange (String.mk ['a']) (String.mk ['h', 'i', '.'])).length ≤ MAX_CHARS) ∧
    (handleSubmit (String.mk [' ', 'h', 'i', '.', ' ']) = some (String.mk ['h', 'i', '.']) ∧
      (String.mk ['h', 'i', '.']) = jsTrim (String.mk [' ', 'h', 'i', '.', ' ']) ∧
      MIN_CHARS ≤ (String.mk ['h', 'i', '.']).length) ∧
    (canSubmit (String.mk ['h', 'i', '.']) false = true ∧
      MIN_CHARS ≤ (jsTrim (String.mk ['h', 'i', '.'])).length ∧
      (String.mk ['h', 'i', '.']).length ≤ MAX_CHARS) := by
  have hsub : handleSubmit (String.mk [' ', 'h', 'i', '.', ' ']) =
      some (String.mk ['h', 'i', '.']) := by decide
  have hcan : canSubmit (String.mk ['h', 'i', '.']) false = true := by decide
  refine ⟨⟨by decide, C9_suggestion_input_bounds.2.1 _ _ (by decide)⟩, ⟨hsub, ?_, ?_⟩,
    hcan, C9_suggestion_input_bounds.2.2.2.2 _ false hcan⟩
  · exact (C9_suggestion_input_bounds.2.2.1 _ _ hsub).1
  · exact (C9_suggestion_input_bounds.2.2.1 _ _ hsub).2

/-- C10: the corridor upvote handler is a no-op (no request issued, state
unchanged) when the session has already upvoted, a request is in flight,
or the corridor id is null; after a successful upvote the button is
disabled (hasUpvoted set) and any further invocation is a no-op
(at-most-once per corridor per panel session); and on request failure the
optimistic increment is rolled back so the displayed count and the
hasUpvoted flag end unchanged. -/
theorem C10_upvote_handler :
    (∀ (cid : Option ℕ) (outcome : UpvoteOutcome) (s : UpvoteState),
      (s.hasUpvoted = true ∨ s.isUpvoting = true ∨ cid = none) →
      handleUpvote cid outcome s = (s, false)) ∧
    (∀ (cid : Option ℕ) (n : ℤ) (s : UpvoteState),
      s.hasUpvoted = false → s.isUpvoting = false → cid ≠ none →
      ((handleUpvote cid (UpvoteOutcome.success n) s).1.hasUpvoted = true ∧
        upvoteDisabled (handleUpvote cid (UpvoteOutcome.success n) s).1 = true ∧
        ∀ outcome2, handleUpvote cid outcome2 (handleUpvote cid (UpvoteOutcome.success n) s).1 =
          ((handleUpvote cid (UpvoteOutcome.success n) s).1, false))) ∧
    (∀ (cid : Option ℕ) (s : UpvoteState),
      (handleUpvote cid UpvoteOutcome.failure s).1.upvotes = s.upvotes ∧
      (handleUpvote cid UpvoteOutcome.failure s).1.hasUpvoted = s.hasUpvoted) := by
  refine ⟨?_, ?_, ?_⟩
  · intro cid outcome s h
    unfold handleUpvote
    have hg : (s.hasUpvoted || s.isUpvoting || cid.isNone) = true := by
      rcases h with h | h | h <;> simp [h]
    rw [if_pos hg]
  · intro cid n s h1 h2 h3
    have hg : (s.hasUpvoted || s.isUpvoting || cid.isNone) = false := by
      rw [h1, h2]
      cases cid with
      | none => exact absurd rfl h3
      | some v => rfl
    have hg' : ¬((s.hasUpvoted || s.isUpvoting || cid.isNone) = true) := by
      rw [hg]; simp
    have hres : handleUpvote cid (UpvoteOutcome.success n) s =
        ({ upvotes := n, hasUpvoted := true, isUpvoting := false }, true) := by
      unfold handleUpvote
      rw [if_neg hg']
    rw [hres]
    refine ⟨rfl, rfl, ?_⟩
    intro outcome2
    unfold handleUpvote
    rw [if_pos (by simp)]
  · intro cid s
    by_cases hg : (s.hasUpvoted || s.isUpvoting || cid.isNone) = true
    · have : handleUpvote cid UpvoteOutcome.failure s = (s, false) := by
        unfold handleUpvote
        rw [if_pos hg]
      rw [this]
      exact ⟨rfl, rfl⟩
    · have hh : s.hasUpvoted = false := by
        rcases Bool.eq_false_or_eq_true s.hasUpvoted with h | h
        · exact absurd (by simp [h]) hg
        · exact h
      have : handleUpvote cid UpvoteOutcome.failure s =
          ({ upvotes := s.upvotes + 1 - 1, hasUpvoted := false, isUpvoting := false },
            true) := by
        unfold handleUpvote
        rw [if_neg hg]
      rw [this, hh]
      exact ⟨add_sub_cancel_right _ _, rfl⟩

theorem C10_upvote_handler_witness :
    ((⟨0, false, false⟩ : UpvoteState).hasUpvoted = false ∧
      (⟨0, false, false⟩ : UpvoteState).isUpvoting = false ∧
      (some 7 : Option ℕ) ≠ none) ∧
    ((handleUpvote (some 7) (UpvoteOutcome.success 5)
        (⟨0, false, false⟩ : UpvoteState)).1.hasUpvoted = true ∧
      upvoteDisabled (handleUpvote (some 7) (UpvoteOutcome.success 5)
        (⟨0, false, false⟩ : UpvoteState)).1 = true ∧
      ∀ outcome2, handleUpvote (some 7) outcome2
          (handleUpvote (some 7) (UpvoteOutcome.success 5)
            (⟨0, false, false⟩ : UpvoteState)).1 =
        ((handleUpvote (some 7) (UpvoteOutcome.success 5)
          (⟨0, false, false⟩ : UpvoteState)).1, false)) :=
  ⟨⟨rfl, rfl, by decide⟩,
    C10_upvote_handler.2.1 (some 7) 5 ⟨0, false, false⟩ rfl rfl (by decide)⟩

end VanSetu
